import Mathlib

/-!
Shallow embedding of src/modules/renter/download.go from the Sia renter:
the download handle and its completion logic (managedFail, Err,
staticComplete), parameter validation in Renter.Download, chunk-job
construction in Renter.newDownload, and Renter.DownloadHistory.

Go machine integers (uint64) are modelled as Nat together with explicit
reduction modulo 2^64 at every operation where Go arithmetic can wrap
(add64, sub64, mul64 below).  Division and remainder on uint64 agree with
Nat division and remainder, so they are used directly.
-/

/-- The modulus of Go uint64 arithmetic, 2^64. -/
def W : Nat := 2 ^ 64

/-- Go uint64 addition: wraps modulo 2^64. -/
def add64 (a b : Nat) : Nat := (a + b) % W

/-- Go uint64 subtraction: wraps modulo 2^64 (two's complement). -/
def sub64 (a b : Nat) : Nat := (a + (W - b % W)) % W

/-- Go uint64 multiplication: wraps modulo 2^64. -/
def mul64 (a b : Nat) : Nat := a * b % W

theorem add64_eq_of_lt {a b : Nat} (h : a + b < W) : add64 a b = a + b :=
  Nat.mod_eq_of_lt h

theorem sub64_eq_of_le {a b : Nat} (hb : b ≤ a) (ha : a < W) : sub64 a b = a - b := by
  have hW : W = 18446744073709551616 := rfl
  simp only [sub64, hW] at *
  omega

theorem add64_lt (a b : Nat) : add64 a b < W := by
  have hW : W = 18446744073709551616 := rfl
  simp only [add64, hW]
  omega

/-- Go errors are modelled as the flat list of their component messages
(NebulousLabs/errors composes errors by collecting them); a Go nil error is
`Option.none` around this type. -/
abbrev GoErr := List String

/-- errors.Compose from NebulousLabs/errors: nil inputs are dropped; the
result is nil when every input is nil, and otherwise holds all component
errors. -/
def composeErr : Option GoErr → Option GoErr → Option GoErr
  | none, none => none
  | some a, none => some a
  | none, some b => some b
  | some a, some b => some (a ++ b)

/-- The message string of a Go error value (Error() on a composed error
joins the component messages; the exact separator is irrelevant to the
claims, a one-message error prints that message verbatim). -/
def joinSep : List String → String
  | [] => ""
  | [s] => s
  | s :: rest => s ++ ("; ") ++ joinSep rest

/-- The download struct of download.go.  completeChan is modelled by the
flag completeClosed plus the counter completeCloses (number of times
close(completeChan) was executed - closing a Go channel twice panics, so
the code must keep this at most 1).  destination.Close() calls are counted
by destCloses, critical log lines by criticalLogs. -/
structure download where
  atomicDataReceived : Nat := 0
  atomicTotalDataTransfered : Nat := 0
  chunksRemaining : Nat := 0
  completeClosed : Bool := false
  completeCloses : Nat := 0
  err : Option GoErr := none
  endTime : Nat := 0
  staticStartTime : Nat := 0
  destinationString : String := ""
  destinationType : String := ""
  staticLength : Nat := 0
  staticOffset : Nat := 0
  staticSiaPath : String := ""
  staticLatencyTarget : Nat := 0
  staticOverdrive : Nat := 0
  staticPriority : Nat := 0
  destCloses : Nat := 0
  criticalLogs : Nat := 0
deriving DecidableEq

instance : Inhabited download := ⟨{}⟩

/-- download.staticComplete: whether completeChan has been closed. -/
def staticComplete (d : download) : Bool := d.completeClosed

/-- download.managedFail from download.go.  If the download is already
complete with an error, the new error is composed onto it; if it is
already complete without an error, only a critical log is emitted;
otherwise the error is stored, completeChan is closed and the destination
is closed. -/
def managedFail (d : download) (e : Option GoErr) : download :=
  if staticComplete d && d.err.isSome then
    { d with err := composeErr d.err e }
  else if staticComplete d && d.err.isNone then
    { d with criticalLogs := d.criticalLogs + 1 }
  else
    { d with err := e
             completeClosed := true
             completeCloses := d.completeCloses + 1
             destCloses := d.destCloses + 1 }

/-- download.Err from download.go. -/
def downloadErr (d : download) : Option GoErr := d.err

/-- modules.DownloadInfo as filled in by Renter.DownloadHistory. -/
structure DownloadInfo where
  destination : String
  destinationType : String
  length : Nat
  offset : Nat
  siaPath : String
  completed : Bool
  endTime : Nat
  received : Nat
  startTime : Nat
  totalDataTransfered : Nat
  error : String
deriving DecidableEq

/-- The DownloadInfo built for one download in the DownloadHistory loop:
every field is copied from the download's current state, and Error is the
empty string when the error is nil and the error's message otherwise. -/
def downloadInfoOf (d : download) : DownloadInfo :=
  { destination := d.destinationString
    destinationType := d.destinationType
    length := d.staticLength
    offset := d.staticOffset
    siaPath := d.staticSiaPath
    completed := staticComplete d
    endTime := d.endTime
    received := d.atomicDataReceived
    startTime := d.staticStartTime
    totalDataTransfered := d.atomicTotalDataTransfered
    error := match d.err with
      | none => ""
      | some es => joinSep es }

/-- Renter.DownloadHistory from download.go: entry i of the result is
built from downloadHistory[len-i-1] (most recent first). -/
def DownloadHistory (downloadHistory : List download) : List DownloadInfo :=
  (List.range downloadHistory.length).map fun i =>
    downloadInfoOf (downloadHistory.getD (downloadHistory.length - i - 1) default)

/-- C2: for every download the completion channel is closed at most once,
and managedFail is idempotent and cumulative: when the download is already
complete with a non-nil error the new error is composed onto the stored
error and nothing else changes (so Err never reverts to nil); when it is
already complete with a nil error only a critical log is emitted;
otherwise the error is stored, the completion channel is closed and the
destination is closed. -/
theorem managedFail_completion_behavior (d : download) (e : Option GoErr) :
    (d.completeClosed = true → d.err ≠ none →
      managedFail d e = { d with err := composeErr d.err e } ∧
        (managedFail d e).err ≠ none ∧
        (managedFail d e).completeCloses = d.completeCloses ∧
        (managedFail d e).destCloses = d.destCloses) ∧
    (d.completeClosed = true → d.err = none →
      managedFail d e = { d with criticalLogs := d.criticalLogs + 1 }) ∧
    (d.completeClosed = false →
      managedFail d e =
        { d with err := e
                 completeClosed := true
                 completeCloses := d.completeCloses + 1
                 destCloses := d.destCloses + 1 }) ∧
    ((d.completeClosed = true ↔ d.completeCloses = 1) → d.completeCloses ≤ 1 →
      ((managedFail d e).completeClosed = true ↔ (managedFail d e).completeCloses = 1) ∧
        (managedFail d e).completeCloses ≤ 1) := by
  refine ⟨?_, ?_, ?_, ?_⟩
  · intro h1 h2
    have hs : d.err.isSome = true := Option.isSome_iff_ne_none.mpr h2
    refine ⟨by simp [managedFail, staticComplete, h1, hs], ?_, ?_, ?_⟩
    · simp only [managedFail, staticComplete, h1, hs]
      simp only [Bool.and_self, if_pos]
      cases he : d.err with
      | none => exact absurd he h2
      | some a => cases e <;> simp [composeErr, he]
    · simp [managedFail, staticComplete, h1, hs]
    · simp [managedFail, staticComplete, h1, hs]
  · intro h1 h2
    simp [managedFail, staticComplete, h1, h2]
  · intro h1
    simp [managedFail, staticComplete, h1]
  · intro hiff hle
    cases hc : d.completeClosed with
    | true =>
      have h1 : (managedFail d e).completeClosed = d.completeClosed ∧
          (managedFail d e).completeCloses = d.completeCloses := by
        cases he : d.err <;> simp [managedFail, staticComplete, hc, he]
      rw [h1.1, h1.2]
      exact ⟨hiff, hle⟩
    | false =>
      have h0 : d.completeCloses = 0 := by
        rcases Nat.lt_or_ge d.completeCloses 1 with h | h
        · omega
        · have : d.completeCloses = 1 := by omega
          exact absurd (hiff.mpr this) (by simp [hc])
      simp [managedFail, staticComplete, hc, h0]

/-- A concrete already-failed download used by the C2 witness. -/
def dExC2 : download :=
  { completeClosed := true
    completeCloses := 1
    err := some [("first failure")] }

theorem managedFail_completion_behavior_witness :
    managedFail dExC2 (some [("second failure")]) =
      { dExC2 with err := some [("first failure"), ("second failure")] } ∧
    (managedFail dExC2 (some [("second failure")])).err ≠ none ∧
    managedFail { dExC2 with err := none } (some [("second failure")]) =
      { dExC2 with err := none, criticalLogs := 1 } ∧
    managedFail {} (some [("boom")]) =
      { err := some [("boom")], completeClosed := true, completeCloses := 1,
        destCloses := 1 } := by
  have h1 := (managedFail_completion_behavior dExC2 (some [("second failure")])).1
    (by decide) (by decide)
  have h2 := (managedFail_completion_behavior { dExC2 with err := none }
    (some [("second failure")])).2.1 (by decide) (by decide)
  have h3 := (managedFail_completion_behavior ({} : download)
    (some [("boom")])).2.2.1 (by decide)
  exact ⟨h1.1, h1.2.1, h2, h3⟩

/-- C9: DownloadHistory returns one DownloadInfo per recorded download in
exactly the reverse of append order (most recent first); each entry's
Error field is empty when the download's error is nil and the error's
message otherwise, and the remaining fields are copied from the download's
current state. -/
theorem downloadHistory_snapshot (hist : List download) :
    DownloadHistory hist = hist.reverse.map downloadInfoOf ∧
    (∀ d : download,
      (d.err = none → (downloadInfoOf d).error = "") ∧
      (∀ es, d.err = some es → (downloadInfoOf d).error = joinSep es) ∧
      (downloadInfoOf d).destination = d.destinationString ∧
      (downloadInfoOf d).destinationType = d.destinationType ∧
      (downloadInfoOf d).length = d.staticLength ∧
      (downloadInfoOf d).offset = d.staticOffset ∧
      (downloadInfoOf d).siaPath = d.staticSiaPath ∧
      (downloadInfoOf d).completed = staticComplete d ∧
      (downloadInfoOf d).endTime = d.endTime ∧
      (downloadInfoOf d).startTime = d.staticStartTime ∧
      (downloadInfoOf d).received = d.atomicDataReceived ∧
      (downloadInfoOf d).totalDataTransfered = d.atomicTotalDataTransfered) := by
  constructor
  · apply List.ext_getElem
    · simp [DownloadHistory]
    · intro i h1 h2
      simp only [DownloadHistory, List.getElem_map, List.getElem_range,
        List.getElem_reverse]
      have hlen : i < hist.length := by
        simpa [DownloadHistory] using h1
      have hidx : hist.length - i - 1 = hist.length - 1 - i := by omega
      rw [hidx, List.getD_eq_getElem hist default (by omega)]
  · intro d
    refine ⟨?_, ?_, rfl, rfl, rfl, rfl, rfl, rfl, rfl, rfl, rfl, rfl⟩
    · intro h
      simp [downloadInfoOf, h]
    · intro es h
      simp [downloadInfoOf, h]

theorem downloadHistory_snapshot_witness :
    DownloadHistory [{ staticSiaPath := ("a") }, dExC2] =
      [downloadInfoOf dExC2, downloadInfoOf { staticSiaPath := ("a") }] ∧
    (downloadInfoOf dExC2).error = ("first failure") := by
  have h1 := (downloadHistory_snapshot [{ staticSiaPath := ("a") }, dExC2]).1
  have h2 := ((downloadHistory_snapshot [dExC2]).2 dExC2).2.1
    [("first failure")] rfl
  refine ⟨by simpa using h1, by simpa using h2⟩

/-- The piece-location record stored per host in a chunk map
(downloadPieceInfo in download.go). -/
structure downloadPieceInfo where
  index : Nat
  root : Nat
deriving DecidableEq

/-- One piece entry of a file contract (fields Chunk, Piece, MerkleRoot
used by newDownload).  All are uint64-sized values. -/
structure filePiece where
  chunk : Nat
  piece : Nat
  merkleRoot : Nat
deriving DecidableEq

/-- A file contract as seen by newDownload: its list of pieces. -/
structure fileContract where
  pieces : List filePiece
deriving DecidableEq

/-- The renter file metadata used by download.go.  The file struct and its
staticChunkSize / erasureCode.NumPieces methods live outside the embedded
source file; modelled from the spec: "File metadata: chunk size, piece
size, erasure-code parameters (K, N), per-chunk contract-to-piece mapping".
contracts is the file's map from contract id to contract, listed in one
fixed iteration order (Go map iteration order is unspecified; every
property proved about it below is order-independent). -/
structure file where
  name : String
  size : Nat
  chunkSize : Nat
  pieceSize : Nat
  numPieces : Nat
  contracts : List (Nat × fileContract)
deriving DecidableEq

/-- downloadParams from download.go (the destination sink itself is
irrelevant to the claims; only its close count is tracked on the download).
All numeric fields are uint64 in Go. -/
structure downloadParams where
  destinationType : String
  destinationString : String
  file : Option file
  latencyTarget : Nat
  length : Nat
  needsMemory : Bool
  offset : Nat
  overdrive : Nat
  priority : Nat
deriving DecidableEq

/-- modules.RenterDownloadParameters as used by Renter.Download: the http
writer is modelled by its presence (p.Httpwriter != nil). -/
structure RenterDownloadParameters where
  async : Bool
  httpwriter : Bool
  length : Nat
  offset : Nat
  siaPath : String
  destination : String
deriving DecidableEq

/-- Lookup in the renter's files map (r.files[p.SiaPath]). -/
def lookupFile : List (String × file) → String → Option file
  | [], _ => none
  | (n, f) :: rest, s => if n = s then some f else lookupFile rest s

/-- filepath.IsAbs on unix: a path is absolute when it begins with a
slash. -/
def filepathIsAbs (path : String) : Bool :=
  match path.data with
  | [] => false
  | c :: _ => c = '/'

instance {ε α : Type} [DecidableEq ε] [DecidableEq α] : DecidableEq (Except ε α) :=
  fun x y =>
    match x, y with
    | .ok a, .ok b =>
      if h : a = b then .isTrue (by rw [h])
      else .isFalse (fun hc => h (Except.ok.inj hc))
    | .error a, .error b =>
      if h : a = b then .isTrue (by rw [h])
      else .isFalse (fun hc => h (Except.error.inj hc))
    | .ok _, .error _ => .isFalse (fun hc => Except.noConfusion hc)
    | .error _, .ok _ => .isFalse (fun hc => Except.noConfusion hc)

/-- The pre-flight validation of Renter.Download (download.go lines
284-317): file lookup, destination checks, the offset-equals-filesize
check, the length = 0 sentinel expansion, and the offset/length range
check.  The Go check p.Offset < 0 on a uint64 is vacuous and omitted.  On
success it returns the file and the (possibly expanded) length with which
the download proceeds. -/
def downloadValidate (files : List (String × file))
    (p : RenterDownloadParameters) : Except String (file × Nat) :=
  match lookupFile files p.siaPath with
  | none => .error (("no file with that path: ") ++ p.siaPath)
  | some f =>
    if p.async = true ∧ p.httpwriter = true then
      .error ("cannot async download to http response")
    else if p.httpwriter = true ∧ p.destination ≠ "" then
      .error ("destination cannot be specified when downloading to http response")
    else if p.httpwriter = false ∧ p.destination = "" then
      .error ("destination not supplied")
    else if p.destination ≠ "" ∧ filepathIsAbs p.destination = false then
      .error ("destination must be an absolute path")
    else if p.offset = f.size then
      .error ("offset equals filesize")
    else
      let len := if p.length = 0 then sub64 f.size p.offset else p.length
      if f.size < add64 p.offset len then
        .error (("offset and length combination invalid, max byte is at index ")
          ++ toString (sub64 f.size 1))
      else .ok (f, len)

/-- minChunk := params.offset / params.file.staticChunkSize(). -/
def goMinChunk (p : downloadParams) (f : file) : Nat := p.offset / f.chunkSize

/-- maxChunk := (params.offset + params.length - 1) / staticChunkSize(),
with uint64 wraparound in the numerator. -/
def goMaxChunk (p : downloadParams) (f : file) : Nat :=
  sub64 (add64 p.offset p.length) 1 / f.chunkSize

/-- A Go map from resolved contract id to piece info. -/
abbrev pieceMap := Nat → Option downloadPieceInfo

def emptyPieceMap : pieceMap := fun _ => none

/-- Go map assignment m[k] = v. -/
def goUpdate (m : pieceMap) (k : Nat) (v : downloadPieceInfo) : pieceMap :=
  fun q => if q = k then some v else m q

/-- The body of the piece loop in newDownload: a piece whose chunk lies in
[minChunk, maxChunk] is recorded in the map of its chunk under the
resolved contract id (overwriting any previous entry for that id, as the
Go map assignment does).  The index piece.Chunk - minChunk is a uint64
subtraction; the range guard makes it agree with Nat subtraction. -/
def insertPieceInto (resolve : Nat → Nat) (minC maxC : Nat) (id : Nat)
    (maps : List pieceMap) (pc : filePiece) : List pieceMap :=
  if minC ≤ pc.chunk ∧ pc.chunk ≤ maxC then
    maps.set (pc.chunk - minC)
      (goUpdate (maps.getD (pc.chunk - minC) emptyPieceMap) (resolve id)
        { index := pc.piece, root := pc.merkleRoot })
  else maps

/-- Processing one contract: its pieces are inserted in order. -/
def insertContract (resolve : Nat → Nat) (minC maxC : Nat)
    (maps : List pieceMap) (idc : Nat × fileContract) : List pieceMap :=
  idc.2.pieces.foldl (insertPieceInto resolve minC maxC idc.1) maps

/-- chunkMaps := make([]map[...]downloadPieceInfo, maxChunk-minChunk+1)
followed by the contract/piece loops of newDownload.  The slice length is
the uint64 value maxChunk-minChunk+1 (which wraps to 0 when
maxChunk+1 = minChunk). -/
def buildChunkMaps (resolve : Nat → Nat) (minC maxC : Nat)
    (contracts : List (Nat × fileContract)) : List pieceMap :=
  contracts.foldl (insertContract resolve minC maxC)
    (List.replicate (add64 (sub64 maxC minC) 1) emptyPieceMap)

/-- The fetch offset newDownload assigns to the chunk with index i:
offset % chunkSize for the first chunk, 0 otherwise. -/
def fetchOffsetAt (p : downloadParams) (f : file) (i : Nat) : Nat :=
  if i = goMinChunk p f then p.offset % f.chunkSize else 0

/-- The fetch length newDownload assigns to the chunk with index i
(uint64 arithmetic as in the source). -/
def fetchLengthAt (p : downloadParams) (f : file) (i : Nat) : Nat :=
  if i = goMaxChunk p f ∧ (add64 p.length p.offset) % f.chunkSize ≠ 0 then
    sub64 ((add64 p.length p.offset) % f.chunkSize) (fetchOffsetAt p f i)
  else
    sub64 f.chunkSize (fetchOffsetAt p f i)

/-- The scheduling unit built per chunk (unfinishedDownloadChunk).  The
physicalChunkData and pieceUsage slices are represented by their lengths
(both erasureCode.NumPieces()); staticWriteOffset is the int64 write
cursor, represented by its 64-bit pattern as a Nat. -/
structure unfinishedDownloadChunk where
  staticChunkIndex : Nat
  staticChunkMap : pieceMap
  staticChunkSize : Nat
  staticPieceSize : Nat
  staticLatencyTarget : Nat
  staticNeedsMemory : Bool
  staticPriority : Nat
  physicalChunkDataLen : Nat
  pieceUsageLen : Nat
  staticFetchOffset : Nat
  staticFetchLength : Nat
  staticWriteOffset : Nat
  staticOverdrive : Nat

/-- The chunk job built by one iteration of the queueing loop in
newDownload, for chunk index i with current write cursor wo.  The
subtraction i - minChunk is uint64 but the loop keeps i ≥ minChunk, so it
agrees with Nat subtraction; staticOverdrive is params.overdrive exactly
when i < 2 (absolute chunk index) and the zero value otherwise. -/
def mkUDC (p : downloadParams) (f : file) (cmaps : List pieceMap)
    (i wo : Nat) : unfinishedDownloadChunk :=
  { staticChunkIndex := i
    staticChunkMap := cmaps.getD (i - goMinChunk p f) emptyPieceMap
    staticChunkSize := f.chunkSize
    staticPieceSize := f.pieceSize
    staticLatencyTarget := add64 p.latencyTarget (mul64 25 (i - goMinChunk p f))
    staticNeedsMemory := p.needsMemory
    staticPriority := p.priority
    physicalChunkDataLen := f.numPieces
    pieceUsageLen := f.numPieces
    staticFetchOffset := fetchOffsetAt p f i
    staticFetchLength := fetchLengthAt p f i
    staticWriteOffset := wo
    staticOverdrive := if i < 2 then p.overdrive else 0 }

/-- The queueing loop of newDownload, unrolled by iteration count: chunk i
is built with the current write cursor, which then advances by the chunk's
fetch length (int64 addition, 64-bit wrap). -/
def buildJobsAux (p : downloadParams) (f : file) (cmaps : List pieceMap) :
    Nat → Nat → Nat → List unfinishedDownloadChunk
  | _, _, 0 => []
  | i, wo, n + 1 =>
    mkUDC p f cmaps i wo ::
      buildJobsAux p f cmaps (i + 1) (add64 wo (fetchLengthAt p f i)) n

/-- for i := minChunk; i <= maxChunk; i++ with writeOffset starting at 0:
the loop runs maxChunk - minChunk + 1 times when minChunk ≤ maxChunk and
not at all otherwise. -/
def buildJobs (p : downloadParams) (f : file) (cmaps : List pieceMap) :
    List unfinishedDownloadChunk :=
  if goMinChunk p f ≤ goMaxChunk p f then
    buildJobsAux p f cmaps (goMinChunk p f) 0 (goMaxChunk p f - goMinChunk p f + 1)
  else []

/-- Renter.newDownload: input validation, the download object (note that
the source never sets destinationType on the download, so it stays the Go
zero value ""), the chunk maps, and the queued chunk jobs in order.
chunksRemaining is incremented once per queued chunk.  resolve is
r.hostContractor.ResolveID and now is time.Now(). -/
def newDownload (resolve : Nat → Nat) (now : Nat) (p : downloadParams) :
    Except String (download × List unfinishedDownloadChunk) :=
  match p.file with
  | none => .error ("no file provided when requesting download")
  | some f =>
    if p.length = 0 then
      .error ("download length must be a positive whole number")
    else if f.size < add64 p.offset p.length then
      .error ("download is requesting data past the boundary of the file")
    else
      let cmaps := buildChunkMaps resolve (goMinChunk p f) (goMaxChunk p f) f.contracts
      let jobs := buildJobs p f cmaps
      .ok ({ staticStartTime := now
             destinationString := p.destinationString
             staticLatencyTarget := p.latencyTarget
             staticLength := p.length
             staticOffset := p.offset
             staticOverdrive := p.overdrive
             staticSiaPath := f.name
             staticPriority := p.priority
             chunksRemaining := jobs.length }, jobs)

/-- The chunk jobs queued for given newDownload parameters (empty when
newDownload rejects them). -/
def downloadJobs (resolve : Nat → Nat) (now : Nat) (p : downloadParams) :
    List unfinishedDownloadChunk :=
  match newDownload resolve now p with
  | .ok (_, jobs) => jobs
  | .error _ => []

/-- The download object newDownload produces, when it succeeds. -/
def downloadOf (resolve : Nat → Nat) (now : Nat) (p : downloadParams) :
    Option download :=
  match newDownload resolve now p with
  | .ok (d, _) => some d
  | .error _ => none

/-- Renter.Download up to queueing: validation followed by newDownload
with the fixed defaults of the source (latencyTarget 25e3, overdrive 2,
priority 5, needsMemory true); os.OpenFile is modelled as succeeding. -/
def RenterDownload (files : List (String × file)) (resolve : Nat → Nat)
    (now : Nat) (p : RenterDownloadParameters) :
    Except String (download × List unfinishedDownloadChunk) :=
  match downloadValidate files p with
  | .error e => .error e
  | .ok (f, len) =>
    newDownload resolve now
      { destinationType := if p.httpwriter then ("http stream") else ("file")
        destinationString := p.destination
        file := some f
        latencyTarget := 25000
        length := len
        needsMemory := true
        offset := p.offset
        overdrive := 2
        priority := 5 }

def exceptIsOk {α : Type} : Except String α → Bool
  | .ok _ => true
  | .error _ => false

/-- C6: Renter.Download returns each pre-flight validation error exactly
under its condition, in the source's order of precedence (missing file,
async+http, http+destination, no destination, relative destination), and
validation succeeds only when none of those conditions hold. -/
theorem download_validation_error_precedence (files : List (String × file))
    (p : RenterDownloadParameters) :
    (lookupFile files p.siaPath = none →
      downloadValidate files p = .error (("no file with that path: ") ++ p.siaPath)) ∧
    (lookupFile files p.siaPath ≠ none → p.async = true → p.httpwriter = true →
      downloadValidate files p = .error ("cannot async download to http response")) ∧
    (lookupFile files p.siaPath ≠ none → ¬(p.async = true ∧ p.httpwriter = true) →
      p.httpwriter = true → p.destination ≠ "" →
      downloadValidate files p =
        .error ("destination cannot be specified when downloading to http response")) ∧
    (lookupFile files p.siaPath ≠ none → p.httpwriter = false → p.destination = "" →
      downloadValidate files p = .error ("destination not supplied")) ∧
    (lookupFile files p.siaPath ≠ none → ¬(p.async = true ∧ p.httpwriter = true) →
      ¬(p.httpwriter = true ∧ p.destination ≠ "") →
      ¬(p.httpwriter = false ∧ p.destination = "") →
      p.destination ≠ "" → filepathIsAbs p.destination = false →
      downloadValidate files p = .error ("destination must be an absolute path")) ∧
    (∀ f len, downloadValidate files p = .ok (f, len) →
      lookupFile files p.siaPath = some f ∧
      ¬(p.async = true ∧ p.httpwriter = true) ∧
      ¬(p.httpwriter = true ∧ p.destination ≠ "") ∧
      ¬(p.httpwriter = false ∧ p.destination = "") ∧
      ¬(p.destination ≠ "" ∧ filepathIsAbs p.destination = false)) := by
  refine ⟨?_, ?_, ?_, ?_, ?_, ?_⟩
  · intro h
    simp [downloadValidate, h]
  · intro hl ha hh
    obtain ⟨f, hf⟩ := Option.ne_none_iff_exists.mp hl
    simp [downloadValidate, ← hf, ha, hh]
  · intro hl hn hh hd
    obtain ⟨f, hf⟩ := Option.ne_none_iff_exists.mp hl
    have ha : p.async = false := by
      cases hA : p.async
      · rfl
      · exact absurd ⟨hA, hh⟩ hn
    simp [downloadValidate, ← hf, ha, hh, hd]
  · intro hl hh hd
    obtain ⟨f, hf⟩ := Option.ne_none_iff_exists.mp hl
    simp [downloadValidate, ← hf, hh, hd]
  · intro hl h1 h2 h3 hd hab
    obtain ⟨f, hf⟩ := Option.ne_none_iff_exists.mp hl
    have hh : p.httpwriter = false := by
      cases hH : p.httpwriter
      · rfl
      · exact absurd ⟨hH, hd⟩ h2
    simp [downloadValidate, ← hf, hh, hd, hab, h1]
  · intro f len h
    cases hf : lookupFile files p.siaPath with
    | none => simp [downloadValidate, hf] at h
    | some f2 =>
      simp only [downloadValidate, hf] at h
      split_ifs at h with h1 h2 h3 h4 h5 h6 <;>
        first
        | exact Except.noConfusion h
        | (rw [Except.ok.injEq, Prod.mk.injEq] at h
           exact ⟨congrArg some h.1, h1, h2, h3, h4⟩)

/-- Files map and parameters used by the C6 witness. -/
def fileEx : file :=
  { name := ("p"), size := 10, chunkSize := 10, pieceSize := 5, numPieces := 3,
    contracts := [] }

def filesEx : List (String × file) := [(("p"), fileEx)]

def pw1 : RenterDownloadParameters :=
  { async := false, httpwriter := false, length := 0, offset := 0,
    siaPath := ("q"), destination := ("/d") }

def pw2 : RenterDownloadParameters :=
  { async := true, httpwriter := true, length := 0, offset := 0,
    siaPath := ("p"), destination := ("") }

def pw3 : RenterDownloadParameters :=
  { async := false, httpwriter := true, length := 0, offset := 0,
    siaPath := ("p"), destination := ("/d") }

def pw4 : RenterDownloadParameters :=
  { async := false, httpwriter := false, length := 0, offset := 0,
    siaPath := ("p"), destination := ("") }

def pw5 : RenterDownloadParameters :=
  { async := false, httpwriter := false, length := 0, offset := 0,
    siaPath := ("p"), destination := ("rel") }

def pw6 : RenterDownloadParameters :=
  { async := false, httpwriter := false, length := 5, offset := 0,
    siaPath := ("p"), destination := ("/d") }

theorem download_validation_error_precedence_witness :
    downloadValidate filesEx pw1 = .error (("no file with that path: ") ++ ("q")) ∧
    downloadValidate filesEx pw2 = .error ("cannot async download to http response") ∧
    downloadValidate filesEx pw3 =
      .error ("destination cannot be specified when downloading to http response") ∧
    downloadValidate filesEx pw4 = .error ("destination not supplied") ∧
    downloadValidate filesEx pw5 = .error ("destination must be an absolute path") ∧
    lookupFile filesEx pw6.siaPath = some fileEx := by
  refine ⟨?_, ?_, ?_, ?_, ?_, ?_⟩
  · exact (download_validation_error_precedence filesEx pw1).1 (by decide)
  · exact (download_validation_error_precedence filesEx pw2).2.1 (by decide) rfl rfl
  · exact (download_validation_error_precedence filesEx pw3).2.2.1
      (by decide) (by decide) rfl (by decide)
  · exact (download_validation_error_precedence filesEx pw4).2.2.2.1
      (by decide) rfl rfl
  · exact (download_validation_error_precedence filesEx pw5).2.2.2.2.1
      (by decide) (by decide) (by decide) (by decide) (by decide) (by decide)
  · exact ((download_validation_error_precedence filesEx pw6).2.2.2.2.2 fileEx 5
      (by decide)).1

/-- The request that exhibits the C1 wraparound: offset 11 on a file of
size 10 with the length = 0 sentinel. -/
def pExC1 : RenterDownloadParameters :=
  { async := false, httpwriter := false, length := 0, offset := 11,
    siaPath := ("p"), destination := ("/out") }

/-- The downloadParams with which Download would reach newDownload on the
C1 failing input (sentinel already expanded to the wrapped uint64 value
size - offset = 2^64 - 1). -/
def pndC1 : downloadParams :=
  { destinationType := ("file"), destinationString := ("/out"),
    file := some fileEx, latencyTarget := 25000, length := W - 1,
    needsMemory := true, offset := 11, overdrive := 2, priority := 5 }

/-- C1 is violated by the code: for offset = 11 > size = 10 with the
length = 0 sentinel, the sentinel expands to the uint64 value
size - offset = 2^64 - 1, offset + length wraps back to exactly size, the
range check passes, and Download proceeds to newDownload, which also
returns no error (it queues zero chunks, so the download can never
complete).  The claim says validation rejects every offset ≥ file size. -/
theorem download_accepts_offset_past_filesize :
    fileEx.size < pExC1.offset ∧
    downloadValidate filesEx pExC1 = .ok (fileEx, W - 1) ∧
    exceptIsOk (RenterDownload filesEx (fun x => x) 0 pExC1) = true ∧
    exceptIsOk (newDownload (fun x => x) 0 pndC1) = true ∧
    (downloadJobs (fun x => x) 0 pndC1).length = 0 := by
  refine ⟨by decide, by decide, by decide, by decide, by decide⟩

theorem W_eq : W = 18446744073709551616 := rfl

theorem sub64_zero {a : Nat} (ha : a < W) : sub64 a 0 = a :=
  sub64_eq_of_le (Nat.zero_le a) ha

theorem add64_add64 (a b c : Nat) : add64 (add64 a b) c = add64 a (b + c) := by
  simp [add64, Nat.mod_add_mod, Nat.add_assoc]

/-- Validity of a download request as the chunk-level claims assume it:
the file is present, the chunk size is a positive uint64 value, the
requested length is positive, and offset + length ≤ size with size a
uint64 value. -/
structure validParams (p : downloadParams) (f : file) : Prop where
  hfile : p.file = some f
  hcs : 0 < f.chunkSize
  hcsW : f.chunkSize < W
  hlen : 0 < p.length
  hrange : p.offset + p.length ≤ f.size
  hsize : f.size < W

theorem valid_add64 (p : downloadParams) (f : file) (hv : validParams p f) :
    add64 p.offset p.length = p.offset + p.length :=
  add64_eq_of_lt (by have h1 := hv.hrange; have h2 := hv.hsize; omega)

theorem valid_add64comm (p : downloadParams) (f : file) (hv : validParams p f) :
    add64 p.length p.offset = p.offset + p.length := by
  have h1 := hv.hrange
  have h2 := hv.hsize
  unfold add64
  rw [Nat.mod_eq_of_lt (by omega)]
  omega

theorem goMaxChunk_eq (p : downloadParams) (f : file) (hv : validParams p f) :
    goMaxChunk p f = (p.offset + p.length - 1) / f.chunkSize := by
  unfold goMaxChunk
  rw [valid_add64 p f hv,
    sub64_eq_of_le (by have h1 := hv.hlen; omega)
      (by have h1 := hv.hrange; have h2 := hv.hsize; omega)]

theorem minC_le_maxC (p : downloadParams) (f : file) (hv : validParams p f) :
    goMinChunk p f ≤ goMaxChunk p f := by
  rw [goMaxChunk_eq p f hv]
  exact Nat.div_le_div_right (by have h1 := hv.hlen; omega)

theorem maxC_lt_W (p : downloadParams) (f : file) (hv : validParams p f) :
    goMaxChunk p f < W := by
  rw [goMaxChunk_eq p f hv]
  have h1 := hv.hrange
  have h2 := hv.hsize
  have h3 := Nat.div_le_self (p.offset + p.length - 1) f.chunkSize
  omega

/-- The chunk maps newDownload builds for a request. -/
def theChunkMaps (resolve : Nat → Nat) (p : downloadParams) (f : file) :
    List pieceMap :=
  buildChunkMaps resolve (goMinChunk p f) (goMaxChunk p f) f.contracts

/-- Sum of the fetch lengths of the k chunks starting at chunk index i. -/
def sumFL (p : downloadParams) (f : file) (i k : Nat) : Nat :=
  ((List.range k).map fun j => fetchLengthAt p f (i + j)).sum

theorem sumFL_succ_last (p : downloadParams) (f : file) (i k : Nat) :
    sumFL p f i (k + 1) = sumFL p f i k + fetchLengthAt p f (i + k) := by
  simp [sumFL, List.range_succ]

theorem sumFL_succ_head (p : downloadParams) (f : file) (i : Nat) : ∀ k,
    sumFL p f i (k + 1) = fetchLengthAt p f i + sumFL p f (i + 1) k := by
  intro k
  induction k generalizing i with
  | zero => simp [sumFL, List.range_succ]
  | succ k ih =>
    rw [sumFL_succ_last, ih i, Nat.add_assoc, sumFL_succ_last]
    have h1 : i + 1 + k = i + (k + 1) := by omega
    rw [h1]

theorem buildJobsAux_length (p : downloadParams) (f : file)
    (cm : List pieceMap) : ∀ (n i wo : Nat), (buildJobsAux p f cm i wo n).length = n
  | 0, _, _ => rfl
  | n + 1, i, wo => by
    simp only [buildJobsAux, List.length_cons, buildJobsAux_length p f cm n]

theorem buildJobsAux_get (p : downloadParams) (f : file) (cm : List pieceMap) :
    ∀ (n k i wo : Nat), wo < W → k < n →
      (buildJobsAux p f cm i wo n).get? k =
        some (mkUDC p f cm (i + k) (add64 wo (sumFL p f i k)))
  | 0, k, _, _, _, hk => absurd hk (Nat.not_lt_zero k)
  | n + 1, 0, i, wo, hwo, _ => by
    simp only [buildJobsAux, List.get?_cons_zero, sumFL, List.range_zero,
      List.map_nil, List.sum_nil, Nat.add_zero]
    rw [show add64 wo 0 = wo from by simp [add64, Nat.mod_eq_of_lt hwo]]
  | n + 1, k + 1, i, wo, hwo, hk => by
    have ih := buildJobsAux_get p f cm n k (i + 1)
      (add64 wo (fetchLengthAt p f i)) (add64_lt _ _) (by omega)
    simp only [buildJobsAux, List.get?_cons_succ]
    rw [ih]
    have h1 : i + 1 + k = i + (k + 1) := by omega
    rw [h1, add64_add64, ← sumFL_succ_head]

theorem buildJobsAux_take_sum (p : downloadParams) (f : file)
    (cm : List pieceMap) : ∀ (n k i wo : Nat), k ≤ n →
      (((buildJobsAux p f cm i wo n).take k).map
        (fun u => u.staticFetchLength)).sum = sumFL p f i k
  | _, 0, _, _, _ => by simp [sumFL]
  | 0, k + 1, _, _, hk => absurd hk (by omega)
  | n + 1, k + 1, i, wo, hk => by
    have ih := buildJobsAux_take_sum p f cm n k (i + 1)
      (add64 wo (fetchLengthAt p f i)) (by omega)
    simp only [buildJobsAux, List.take_succ_cons, List.map_cons, List.sum_cons, ih, mkUDC]
    rw [sumFL_succ_head]

theorem buildJobsAux_sum (p : downloadParams) (f : file)
    (cm : List pieceMap) : ∀ (n i wo : Nat),
      ((buildJobsAux p f cm i wo n).map (fun u => u.staticFetchLength)).sum =
        sumFL p f i n
  | 0, _, _ => by simp [sumFL, buildJobsAux]
  | n + 1, i, wo => by
    have ih := buildJobsAux_sum p f cm n (i + 1) (add64 wo (fetchLengthAt p f i))
    simp only [buildJobsAux, List.map_cons, List.sum_cons, ih, mkUDC]
    rw [sumFL_succ_head]

theorem newDownload_ok (resolve : Nat → Nat) (now : Nat) (p : downloadParams)
    (f : file) (hv : validParams p f) :
    newDownload resolve now p =
      .ok ({ staticStartTime := now
             destinationString := p.destinationString
             staticLatencyTarget := p.latencyTarget
             staticLength := p.length
             staticOffset := p.offset
             staticOverdrive := p.overdrive
             staticSiaPath := f.name
             staticPriority := p.priority
             chunksRemaining := (buildJobs p f (theChunkMaps resolve p f)).length },
           buildJobs p f (theChunkMaps resolve p f)) := by
  have h1 : ¬ p.length = 0 := by have h2 := hv.hlen; omega
  have h2 : ¬ f.size < add64 p.offset p.length := by
    rw [valid_add64 p f hv]
    have h3 := hv.hrange
    omega
  simp only [newDownload, hv.hfile, h1, h2, if_false, theChunkMaps]

theorem downloadJobs_eq (resolve : Nat → Nat) (now : Nat) (p : downloadParams)
    (f : file) (hv : validParams p f) :
    downloadJobs resolve now p = buildJobs p f (theChunkMaps resolve p f) := by
  unfold downloadJobs
  rw [newDownload_ok resolve now p f hv]

theorem downloadJobs_length (resolve : Nat → Nat) (now : Nat)
    (p : downloadParams) (f : file) (hv : validParams p f) :
    (downloadJobs resolve now p).length = goMaxChunk p f - goMinChunk p f + 1 := by
  rw [downloadJobs_eq resolve now p f hv]
  unfold buildJobs
  rw [if_pos (minC_le_maxC p f hv)]
  exact buildJobsAux_length p f _ _ _ _

theorem downloadJobs_get (resolve : Nat → Nat) (now : Nat) (p : downloadParams)
    (f : file) (hv : validParams p f) (k : Nat)
    (hk : k ≤ goMaxChunk p f - goMinChunk p f) :
    (downloadJobs resolve now p).get? k =
      some (mkUDC p f (theChunkMaps resolve p f) (goMinChunk p f + k)
        (add64 0 (sumFL p f (goMinChunk p f) k))) := by
  rw [downloadJobs_eq resolve now p f hv]
  unfold buildJobs
  rw [if_pos (minC_le_maxC p f hv)]
  exact buildJobsAux_get p f _ _ k _ 0 (by rw [W_eq]; omega) (by omega)

theorem lastMod_facts (cs o l : Nat) (hcs : 0 < cs) (hm : (o + l) % cs ≠ 0) :
    (o + l) % cs = o + l - cs * ((o + l - 1) / cs) ∧
      o + l < cs * ((o + l - 1) / cs) + cs := by
  have hq2 := Nat.div_add_mod (o + l - 1) cs
  have hr2 := Nat.mod_lt (o + l - 1) hcs
  have hq3 := Nat.div_add_mod (o + l) cs
  have hr3 := Nat.mod_lt (o + l) hcs
  rcases Nat.lt_trichotomy ((o + l) / cs) ((o + l - 1) / cs) with h | h | h
  · exfalso
    have hmul := Nat.mul_le_mul_left cs
      (show (o + l) / cs + 1 ≤ (o + l - 1) / cs by omega)
    have e : cs * ((o + l) / cs + 1) = cs * ((o + l) / cs) + cs := by ring
    omega
  · rw [← h]
    omega
  · exfalso
    have hmul := Nat.mul_le_mul_left cs
      (show (o + l - 1) / cs + 1 ≤ (o + l) / cs by omega)
    have e : cs * ((o + l - 1) / cs + 1) = cs * ((o + l - 1) / cs) + cs := by ring
    omega

theorem lastMod_zero (cs o l : Nat) (hcs : 0 < cs) (hpos : 0 < l)
    (hm : (o + l) % cs = 0) : o + l = cs * ((o + l - 1) / cs) + cs := by
  have hq2 := Nat.div_add_mod (o + l - 1) cs
  have hr2 := Nat.mod_lt (o + l - 1) hcs
  have hq3 := Nat.div_add_mod (o + l) cs
  rcases Nat.lt_trichotomy ((o + l) / cs) ((o + l - 1) / cs + 1) with h | h | h
  · exfalso
    have hmul := Nat.mul_le_mul_left cs
      (show (o + l) / cs ≤ (o + l - 1) / cs by omega)
    omega
  · have e : cs * ((o + l - 1) / cs + 1) = cs * ((o + l - 1) / cs) + cs := by ring
    rw [h] at hq3
    omega
  · exfalso
    have hmul := Nat.mul_le_mul_left cs
      (show (o + l - 1) / cs + 2 ≤ (o + l) / cs by omega)
    have e : cs * ((o + l - 1) / cs + 2) =
        cs * ((o + l - 1) / cs) + cs + cs := by ring
    omega

/-- The fetch length of chunk j in a valid download is exactly the length
of the intersection of the byte interval of chunk j with the requested
range [offset, offset + length). -/
theorem fetchLengthAt_interval (p : downloadParams) (f : file)
    (hv : validParams p f) (j : Nat) (hj1 : goMinChunk p f ≤ j)
    (hj2 : j ≤ goMaxChunk p f) :
    fetchLengthAt p f j =
      min (p.offset + p.length) ((j + 1) * f.chunkSize) -
        max p.offset (j * f.chunkSize) := by
  have hcs := hv.hcs
  have hcsW := hv.hcsW
  have hlen := hv.hlen
  have hW := W_eq
  have hcw : add64 p.length p.offset = p.offset + p.length := valid_add64comm p f hv
  have hmax := goMaxChunk_eq p f hv
  rw [hmax] at hj2
  have hj1a : p.offset / f.chunkSize ≤ j := hj1
  have hq1 := Nat.div_add_mod p.offset f.chunkSize
  have hr1 := Nat.mod_lt p.offset hcs
  have hq2 := Nat.div_add_mod (p.offset + p.length - 1) f.chunkSize
  have hr2 := Nat.mod_lt (p.offset + p.length - 1) hcs
  have hr3 := Nat.mod_lt (p.offset + p.length) hcs
  have hmul1 : f.chunkSize * (p.offset / f.chunkSize) ≤ f.chunkSize * j :=
    Nat.mul_le_mul_left _ hj1a
  have hmul2 : f.chunkSize * j ≤
      f.chunkSize * ((p.offset + p.length - 1) / f.chunkSize) :=
    Nat.mul_le_mul_left _ hj2
  have e3 : (j + 1) * f.chunkSize = f.chunkSize * j + f.chunkSize := by ring
  have e4 : j * f.chunkSize = f.chunkSize * j := by ring
  unfold fetchLengthAt fetchOffsetAt
  simp only [goMinChunk]
  rw [hcw, hmax]
  by_cases hcase : j = (p.offset + p.length - 1) / f.chunkSize ∧
      (p.offset + p.length) % f.chunkSize ≠ 0
  · rw [if_pos hcase]
    obtain ⟨hjm, hm⟩ := hcase
    obtain ⟨hm1, hm2⟩ := lastMod_facts f.chunkSize p.offset p.length hcs hm
    have hj : f.chunkSize * j =
        f.chunkSize * ((p.offset + p.length - 1) / f.chunkSize) := by rw [hjm]
    by_cases hjmin : j = p.offset / f.chunkSize
    · rw [if_pos hjmin]
      have hj0 : f.chunkSize * j = f.chunkSize * (p.offset / f.chunkSize) := by
        rw [hjmin]
      rw [sub64_eq_of_le (by omega) (by omega)]
      omega
    · rw [if_neg hjmin]
      rw [sub64_zero (by omega)]
      have hgt : p.offset / f.chunkSize < j := by omega
      have hmul3 : f.chunkSize * (p.offset / f.chunkSize + 1) ≤ f.chunkSize * j :=
        Nat.mul_le_mul_left _ hgt
      have e5 : f.chunkSize * (p.offset / f.chunkSize + 1) =
          f.chunkSize * (p.offset / f.chunkSize) + f.chunkSize := by ring
      omega
  · rw [if_neg hcase]
    have hub : f.chunkSize * (j + 1) ≤ p.offset + p.length := by
      rcases Nat.lt_or_ge j ((p.offset + p.length - 1) / f.chunkSize) with h | h
      · have hmul3 : f.chunkSize * (j + 1) ≤
            f.chunkSize * ((p.offset + p.length - 1) / f.chunkSize) :=
          Nat.mul_le_mul_left _ (by omega)
        omega
      · have hjm : j = (p.offset + p.length - 1) / f.chunkSize := by omega
        have hm : (p.offset + p.length) % f.chunkSize = 0 := by
          by_contra hm
          exact hcase ⟨hjm, hm⟩
        have hz := lastMod_zero f.chunkSize p.offset p.length hcs hlen hm
        have hj : f.chunkSize * j =
            f.chunkSize * ((p.offset + p.length - 1) / f.chunkSize) := by rw [hjm]
        have e7 : f.chunkSize * (j + 1) = f.chunkSize * j + f.chunkSize := by ring
        omega
    have e6 : f.chunkSize * (j + 1) = f.chunkSize * j + f.chunkSize := by ring
    by_cases hjmin : j = p.offset / f.chunkSize
    · rw [if_pos hjmin]
      have hj0 : f.chunkSize * j = f.chunkSize * (p.offset / f.chunkSize) := by
        rw [hjmin]
      rw [sub64_eq_of_le (by omega) (by omega)]
      omega
    · rw [if_neg hjmin]
      rw [sub64_zero (by omega)]
      have hgt : p.offset / f.chunkSize < j := by omega
      have hmul3 : f.chunkSize * (p.offset / f.chunkSize + 1) ≤ f.chunkSize * j :=
        Nat.mul_le_mul_left _ hgt
      have e5 : f.chunkSize * (p.offset / f.chunkSize + 1) =
          f.chunkSize * (p.offset / f.chunkSize) + f.chunkSize := by ring
      omega

/-- Cumulative boundary function used to telescope the fetch lengths: the
position in the file up to which the first j chunks of the download cover
the requested range. -/
def gBound (p : downloadParams) (f : file) : Nat → Nat
  | 0 => p.offset
  | j + 1 => min (p.offset + p.length) ((goMinChunk p f + j + 1) * f.chunkSize)

theorem gBound_le_ol (p : downloadParams) (f : file) :
    ∀ j, gBound p f j ≤ p.offset + p.length
  | 0 => by simp [gBound]
  | j + 1 => by simp [gBound]

theorem gBound_le (p : downloadParams) (f : file) (hv : validParams p f) :
    ∀ j, gBound p f j ≤ gBound p f (j + 1)
  | 0 => by
    simp only [gBound]
    have h1 := Nat.div_add_mod p.offset f.chunkSize
    have h2 := Nat.mod_lt p.offset hv.hcs
    have e : (goMinChunk p f + 0 + 1) * f.chunkSize =
        f.chunkSize * (p.offset / f.chunkSize) + f.chunkSize := by
      simp only [goMinChunk]
      ring
    omega
  | j + 1 => by
    simp only [gBound]
    have e : (goMinChunk p f + j + 1) * f.chunkSize ≤
        (goMinChunk p f + (j + 1) + 1) * f.chunkSize :=
      Nat.mul_le_mul_right _ (by omega)
    omega

theorem gBound_mono (p : downloadParams) (f : file) (hv : validParams p f)
    (j k : Nat) (h : j ≤ k) : gBound p f j ≤ gBound p f k := by
  induction k with
  | zero =>
    have hj : j = 0 := by omega
    rw [hj]
  | succ k ih =>
    rcases Nat.lt_or_ge j (k + 1) with h2 | h2
    · exact Nat.le_trans (ih (by omega)) (gBound_le p f hv k)
    · have hj : j = k + 1 := by omega
      rw [hj]

theorem fetchLengthAt_g (p : downloadParams) (f : file) (hv : validParams p f)
    (j : Nat) (hj : goMinChunk p f + j ≤ goMaxChunk p f) :
    fetchLengthAt p f (goMinChunk p f + j) = gBound p f (j + 1) - gBound p f j := by
  rw [fetchLengthAt_interval p f hv _ (by omega) hj]
  have hq1 := Nat.div_add_mod p.offset f.chunkSize
  have hr1 := Nat.mod_lt p.offset hv.hcs
  have hq2 := Nat.div_add_mod (p.offset + p.length - 1) f.chunkSize
  have hr2 := Nat.mod_lt (p.offset + p.length - 1) hv.hcs
  have hmaxeq := goMaxChunk_eq p f hv
  rw [hmaxeq] at hj
  have hminC : goMinChunk p f = p.offset / f.chunkSize := rfl
  cases j with
  | zero =>
    simp only [gBound]
    have e1 : (goMinChunk p f + 0 + 1) * f.chunkSize =
        f.chunkSize * (p.offset / f.chunkSize) + f.chunkSize := by
      rw [hminC]; ring
    have e2 : (goMinChunk p f + 0) * f.chunkSize =
        f.chunkSize * (p.offset / f.chunkSize) := by
      rw [hminC]; ring
    omega
  | succ j =>
    simp only [gBound]
    have e1 : (goMinChunk p f + (j + 1) + 1) * f.chunkSize =
        (goMinChunk p f + j + 1) * f.chunkSize + f.chunkSize := by ring
    have e2 : (goMinChunk p f + (j + 1)) * f.chunkSize =
        (goMinChunk p f + j + 1) * f.chunkSize := by ring
    have hmul1 : (goMinChunk p f + j + 1) * f.chunkSize ≤
        f.chunkSize * ((p.offset + p.length - 1) / f.chunkSize) := by
      have h3 : (goMinChunk p f + j + 1) * f.chunkSize =
          f.chunkSize * (goMinChunk p f + j + 1) := by ring
      rw [h3]
      exact Nat.mul_le_mul_left _ (by omega)
    have hmul2 : f.chunkSize * (p.offset / f.chunkSize) + f.chunkSize ≤
        (goMinChunk p f + j + 1) * f.chunkSize := by
      have h3 : (goMinChunk p f + j + 1) * f.chunkSize =
          f.chunkSize * (goMinChunk p f + j + 1) := by ring
      have h4 : f.chunkSize * (p.offset / f.chunkSize) + f.chunkSize =
          f.chunkSize * (p.offset / f.chunkSize + 1) := by ring
      rw [h3, h4]
      exact Nat.mul_le_mul_left _ (by rw [← hminC]; omega)
    omega

theorem sumFL_g (p : downloadParams) (f : file) (hv : validParams p f) :
    ∀ k, goMinChunk p f + k ≤ goMaxChunk p f + 1 →
      sumFL p f (goMinChunk p f) k = gBound p f k - gBound p f 0
  | 0, _ => by simp [sumFL]
  | k + 1, hk => by
    have ih := sumFL_g p f hv k (by omega)
    rw [sumFL_succ_last, ih, fetchLengthAt_g p f hv k (by omega)]
    have h1 := gBound_mono p f hv 0 k (by omega)
    have h2 := gBound_le p f hv k
    omega

theorem sumFL_le_length (p : downloadParams) (f : file) (hv : validParams p f)
    (k : Nat) (hk : goMinChunk p f + k ≤ goMaxChunk p f + 1) :
    sumFL p f (goMinChunk p f) k ≤ p.length := by
  rw [sumFL_g p f hv k hk]
  have h1 := gBound_le_ol p f k
  have h0 : gBound p f 0 = p.offset := rfl
  omega

theorem sumFL_total (p : downloadParams) (f : file) (hv : validParams p f) :
    sumFL p f (goMinChunk p f) (goMaxChunk p f - goMinChunk p f + 1) = p.length := by
  have hle := minC_le_maxC p f hv
  rw [sumFL_g p f hv _ (by omega)]
  have hq2 := Nat.div_add_mod (p.offset + p.length - 1) f.chunkSize
  have hr2 := Nat.mod_lt (p.offset + p.length - 1) hv.hcs
  have hlen := hv.hlen
  have hc : goMaxChunk p f - goMinChunk p f + 1 =
      (goMaxChunk p f - goMinChunk p f) + 1 := rfl
  cases hcnt : goMaxChunk p f - goMinChunk p f + 1 with
  | zero => omega
  | succ k =>
    simp only [gBound]
    have hk : goMinChunk p f + k = goMaxChunk p f := by omega
    have e1 : (goMinChunk p f + k + 1) * f.chunkSize =
        f.chunkSize * (goMaxChunk p f + 1) := by rw [hk]; ring
    have e2 : f.chunkSize * (goMaxChunk p f + 1) =
        f.chunkSize * ((p.offset + p.length - 1) / f.chunkSize) + f.chunkSize := by
      rw [goMaxChunk_eq p f hv]
      ring
    omega

/-- The fetch length of chunk j in a valid download, with the uint64
subtractions of the source replaced by exact Nat subtraction (they cannot
underflow for a validated request). -/
theorem fetchLengthAt_exact (p : downloadParams) (f : file)
    (hv : validParams p f) (j : Nat) (hj1 : goMinChunk p f ≤ j)
    (hj2 : j ≤ goMaxChunk p f) :
    fetchLengthAt p f j =
      if j = goMaxChunk p f ∧ (p.offset + p.length) % f.chunkSize ≠ 0 then
        (p.offset + p.length) % f.chunkSize - fetchOffsetAt p f j
      else f.chunkSize - fetchOffsetAt p f j := by
  have hcs := hv.hcs
  have hcsW := hv.hcsW
  have hW := W_eq
  have hcw : add64 p.length p.offset = p.offset + p.length := valid_add64comm p f hv
  have hmax := goMaxChunk_eq p f hv
  have hq1 := Nat.div_add_mod p.offset f.chunkSize
  have hr1 := Nat.mod_lt p.offset hcs
  have hq2 := Nat.div_add_mod (p.offset + p.length - 1) f.chunkSize
  have hr3 := Nat.mod_lt (p.offset + p.length) hcs
  unfold fetchLengthAt
  rw [hcw]
  by_cases hcase : j = goMaxChunk p f ∧
      (p.offset + p.length) % f.chunkSize ≠ 0
  · rw [if_pos hcase, if_pos hcase]
    obtain ⟨hjm, hm⟩ := hcase
    obtain ⟨hm1, hm2⟩ := lastMod_facts f.chunkSize p.offset p.length hcs hm
    unfold fetchOffsetAt
    simp only [goMinChunk]
    by_cases hjmin : j = p.offset / f.chunkSize
    · rw [if_pos hjmin]
      have hqq : p.offset / f.chunkSize = (p.offset + p.length - 1) / f.chunkSize := by
        rw [← hjmin, hjm, hmax]
      have hjq : f.chunkSize * (p.offset / f.chunkSize) =
          f.chunkSize * ((p.offset + p.length - 1) / f.chunkSize) := by
        rw [hqq]
      rw [sub64_eq_of_le (by omega) (by omega)]
    · rw [if_neg hjmin]
      rw [sub64_zero (by omega)]
      omega
  · rw [if_neg hcase, if_neg hcase]
    unfold fetchOffsetAt
    simp only [goMinChunk]
    by_cases hjmin : j = p.offset / f.chunkSize
    · rw [if_pos hjmin]
      rw [sub64_eq_of_le (by omega) (by omega)]
    · rw [if_neg hjmin]
      rw [sub64_zero (by omega)]
      omega

/-- C3: for every validated download (offset + length ≤ size, length > 0)
the chunk job for chunk index j has staticFetchOffset = offset mod
chunkSize for the first chunk and 0 otherwise, and staticFetchLength =
((offset+length) mod chunkSize) − staticFetchOffset for the last chunk
when (offset+length) mod chunkSize ≠ 0, and chunkSize − staticFetchOffset
otherwise. -/
theorem chunk_fetch_offsets_and_lengths (resolve : Nat → Nat) (now : Nat)
    (p : downloadParams) (f : file) (hv : validParams p f) (j : Nat)
    (hj1 : goMinChunk p f ≤ j) (hj2 : j ≤ goMaxChunk p f) :
    ((downloadJobs resolve now p).get? (j - goMinChunk p f)).map
        (fun u => (u.staticFetchOffset, u.staticFetchLength)) =
      some
        (if j = goMinChunk p f then p.offset % f.chunkSize else 0,
         if j = goMaxChunk p f ∧ (p.offset + p.length) % f.chunkSize ≠ 0 then
           (p.offset + p.length) % f.chunkSize -
             (if j = goMinChunk p f then p.offset % f.chunkSize else 0)
         else
           f.chunkSize -
             (if j = goMinChunk p f then p.offset % f.chunkSize else 0)) := by
  have hget := downloadJobs_get resolve now p f hv (j - goMinChunk p f) (by omega)
  have hidx : goMinChunk p f + (j - goMinChunk p f) = j := by omega
  rw [hget, hidx]
  simp only [Option.map_some', mkUDC]
  rw [fetchLengthAt_exact p f hv j hj1 hj2]
  rfl

/-- Parameters for the C3 and C10 witnesses: a valid two-chunk request
with a mid-chunk start and a partial tail (file size 20, chunk size 10,
offset 5, length 12). -/
def fileExC7 : file :=
  { name := ("f7"), size := 20, chunkSize := 10, pieceSize := 5, numPieces := 3,
    contracts := [] }

def pExC3 : downloadParams :=
  { destinationType := ("file"), destinationString := ("/out"),
    file := some fileExC7, latencyTarget := 25000, length := 12,
    needsMemory := true, offset := 5, overdrive := 2, priority := 5 }

theorem chunk_fetch_offsets_and_lengths_witness :
    ((downloadJobs (fun x => x) 0 pExC3).get? (1 - goMinChunk pExC3 fileExC7)).map
        (fun u => (u.staticFetchOffset, u.staticFetchLength)) =
      some
        (if 1 = goMinChunk pExC3 fileExC7 then pExC3.offset % fileExC7.chunkSize else 0,
         if 1 = goMaxChunk pExC3 fileExC7 ∧
             (pExC3.offset + pExC3.length) % fileExC7.chunkSize ≠ 0 then
           (pExC3.offset + pExC3.length) % fileExC7.chunkSize -
             (if 1 = goMinChunk pExC3 fileExC7 then
               pExC3.offset % fileExC7.chunkSize else 0)
         else
           fileExC7.chunkSize -
             (if 1 = goMinChunk pExC3 fileExC7 then
               pExC3.offset % fileExC7.chunkSize else 0)) :=
  chunk_fetch_offsets_and_lengths (fun x => x) 0 pExC3 fileExC7
    ⟨rfl, by decide, by decide, by decide, by decide, by decide⟩ 1
    (by decide) (by decide)

/-- Parameters exhibiting the C4 counterexample: a valid single-chunk
request whose first chunk has absolute index 2. -/
def fileExC4 : file :=
  { name := ("f4"), size := 30, chunkSize := 10, pieceSize := 5, numPieces := 3,
    contracts := [] }

def pExC4 : downloadParams :=
  { destinationType := ("file"), destinationString := ("/out"),
    file := some fileExC4, latencyTarget := 25000, length := 10,
    needsMemory := true, offset := 20, overdrive := 2, priority := 5 }

/-- C4 fails on the code: the source gives overdrive to chunks with
absolute index i < 2, not to the first two chunks of the download.  For
offset 20 on a file with chunk size 10 the first (and only) chunk job of
the download has chunk index minChunk = 2 and receives staticOverdrive 0
even though the configured overdrive is 2. -/
theorem overdrive_skips_first_chunks_counterexample :
    goMinChunk pExC4 fileExC4 = 2 ∧
    pExC4.overdrive = 2 ∧
    ((downloadJobs (fun x => x) 0 pExC4).get? 0).map
        (fun u => (u.staticChunkIndex, u.staticOverdrive)) = some (2, 0) ∧
    ¬ (0 : Nat) = 2 := by
  refine ⟨by decide, by decide, by decide, by decide⟩

/-- C4 amended: for every validated download, the chunk job for chunk
index j receives staticOverdrive = configured overdrive when the absolute
chunk index j is < 2 (file chunks 0 and 1), and 0 for every other chunk,
regardless of the download's first chunk. -/
theorem overdrive_absolute_index_policy (resolve : Nat → Nat) (now : Nat)
    (p : downloadParams) (f : file) (hv : validParams p f) (j : Nat)
    (hj1 : goMinChunk p f ≤ j) (hj2 : j ≤ goMaxChunk p f) :
    ((downloadJobs resolve now p).get? (j - goMinChunk p f)).map
        (fun u => u.staticOverdrive) =
      some (if j < 2 then p.overdrive else 0) := by
  have hget := downloadJobs_get resolve now p f hv (j - goMinChunk p f) (by omega)
  have hidx : goMinChunk p f + (j - goMinChunk p f) = j := by omega
  rw [hget, hidx]
  simp only [Option.map_some', mkUDC]

theorem overdrive_absolute_index_policy_witness :
    ((downloadJobs (fun x => x) 0 pExC4).get?
        (2 - goMinChunk pExC4 fileExC4)).map (fun u => u.staticOverdrive) =
      some (if 2 < 2 then pExC4.overdrive else 0) :=
  overdrive_absolute_index_policy (fun x => x) 0 pExC4 fileExC4
    ⟨rfl, by decide, by decide, by decide, by decide, by decide⟩ 2
    (by decide) (by decide)

/-- Parameters exhibiting the C7 counterexample: a valid two-chunk request
whose base latency target is the uint64 value 2^64 - 25, so the per-chunk
+25 relaxation wraps to 0 on the second chunk. -/
def pExC7 : downloadParams :=
  { destinationType := ("file"), destinationString := ("/out"),
    file := some fileExC7, latencyTarget := W - 25, length := 20,
    needsMemory := true, offset := 0, overdrive := 2, priority := 5 }

/-- C7 fails on the code: staticLatencyTarget is computed in uint64
arithmetic, so with base target 2^64 - 25 the second chunk job gets
target (2^64 - 25) + 25 mod 2^64 = 0, not the claimed exact value
base + 25·1 = 2^64, and the targets are not monotonically non-decreasing
(chunk 0 has target 2^64 - 25 > 0). -/
theorem latency_target_wraparound_counterexample :
    ((downloadJobs (fun x => x) 0 pExC7).get? 0).map
        (fun u => u.staticLatencyTarget) = some (W - 25) ∧
    ((downloadJobs (fun x => x) 0 pExC7).get? 1).map
        (fun u => u.staticLatencyTarget) = some 0 ∧
    pExC7.latencyTarget + 25 * (1 - goMinChunk pExC7 fileExC7) = W ∧
    ¬ (W : Nat) = 0 ∧
    ¬ W - 25 ≤ (0 : Nat) := by
  refine ⟨by decide, by decide, by decide, by decide, by decide⟩

/-- C7 amended: for every validated download the chunk job for chunk
index j has staticLatencyTarget = (base + 25·(j − minChunk)) mod 2^64,
and when base + 25·(maxChunk − minChunk) < 2^64 (no uint64 wraparound)
the latency targets are monotonically non-decreasing in the chunk
index. -/
theorem latency_target_mod_formula (resolve : Nat → Nat) (now : Nat)
    (p : downloadParams) (f : file) (hv : validParams p f) (j : Nat)
    (hj1 : goMinChunk p f ≤ j) (hj2 : j ≤ goMaxChunk p f) :
    ((downloadJobs resolve now p).get? (j - goMinChunk p f)).map
        (fun u => u.staticLatencyTarget) =
      some ((p.latencyTarget + 25 * (j - goMinChunk p f)) % W) ∧
    (p.latencyTarget + 25 * (goMaxChunk p f - goMinChunk p f) < W →
      ∀ j2, j ≤ j2 → j2 ≤ goMaxChunk p f →
        (p.latencyTarget + 25 * (j - goMinChunk p f)) % W ≤
          (p.latencyTarget + 25 * (j2 - goMinChunk p f)) % W) := by
  constructor
  · have hget := downloadJobs_get resolve now p f hv (j - goMinChunk p f) (by omega)
    have hidx : goMinChunk p f + (j - goMinChunk p f) = j := by omega
    rw [hget, hidx]
    simp only [Option.map_some', mkUDC]
    refine congrArg some ?_
    simp only [add64, mul64, W_eq]
    omega
  · intro hnf j2 hj21 hj22
    have h1 : 25 * (j - goMinChunk p f) ≤
        25 * (goMaxChunk p f - goMinChunk p f) :=
      Nat.mul_le_mul_left _ (by omega)
    have h2 : 25 * (j2 - goMinChunk p f) ≤
        25 * (goMaxChunk p f - goMinChunk p f) :=
      Nat.mul_le_mul_left _ (by omega)
    have h3 : 25 * (j - goMinChunk p f) ≤ 25 * (j2 - goMinChunk p f) :=
      Nat.mul_le_mul_left _ (by omega)
    rw [Nat.mod_eq_of_lt (by omega), Nat.mod_eq_of_lt (by omega)]
    omega

theorem latency_target_mod_formula_witness :
    ((downloadJobs (fun x => x) 0 pExC3).get? (0 - goMinChunk pExC3 fileExC7)).map
        (fun u => u.staticLatencyTarget) =
      some ((pExC3.latencyTarget + 25 * (0 - goMinChunk pExC3 fileExC7)) % W) ∧
    (pExC3.latencyTarget + 25 * (0 - goMinChunk pExC3 fileExC7)) % W ≤
      (pExC3.latencyTarget + 25 * (1 - goMinChunk pExC3 fileExC7)) % W := by
  have h := latency_target_mod_formula (fun x => x) 0 pExC3 fileExC7
    ⟨rfl, by decide, by decide, by decide, by decide, by decide⟩ 0
    (by decide) (by decide)
  exact ⟨h.1, h.2 (by decide) 1 (by decide) (by decide)⟩

/-- C10: for every validated download the chunk jobs' destination write
ranges are consecutive and start at 0: each chunk's staticWriteOffset is
the sum of the fetch lengths of all earlier chunks, and the fetch lengths
sum to exactly the requested length, so the write ranges partition
[0, length). -/
theorem chunk_write_ranges_partition (resolve : Nat → Nat) (now : Nat)
    (p : downloadParams) (f : file) (hv : validParams p f) :
    (∀ k u, (downloadJobs resolve now p).get? k = some u →
      u.staticWriteOffset =
        (((downloadJobs resolve now p).take k).map
          (fun v => v.staticFetchLength)).sum) ∧
    ((downloadJobs resolve now p).map (fun v => v.staticFetchLength)).sum =
      p.length := by
  have hlen := downloadJobs_length resolve now p f hv
  have hJ := downloadJobs_eq resolve now p f hv
  have hmc := minC_le_maxC p f hv
  constructor
  · intro k u hu
    have hk : k < (downloadJobs resolve now p).length := by
      by_contra hk2
      rw [List.get?_eq_none.mpr (by omega)] at hu
      exact Option.noConfusion hu
    rw [hlen] at hk
    have hget := downloadJobs_get resolve now p f hv k (by omega)
    rw [hget] at hu
    injection hu with hu
    subst hu
    rw [hJ]
    unfold buildJobs
    rw [if_pos (minC_le_maxC p f hv)]
    rw [buildJobsAux_take_sum p f _ _ k _ 0 (by omega)]
    show add64 0 (sumFL p f (goMinChunk p f) k) = sumFL p f (goMinChunk p f) k
    have hle := sumFL_le_length p f hv k (by omega)
    have hlenW : p.length < W := by
      have h1 := hv.hrange
      have h2 := hv.hsize
      omega
    unfold add64
    rw [Nat.zero_add]
    exact Nat.mod_eq_of_lt (by omega)
  · rw [hJ]
    unfold buildJobs
    rw [if_pos (minC_le_maxC p f hv)]
    rw [buildJobsAux_sum]
    exact sumFL_total p f hv

theorem chunk_write_ranges_partition_witness :
    ((downloadJobs (fun x => x) 0 pExC3).get? 1).map
        (fun u => u.staticWriteOffset) =
      some ((((downloadJobs (fun x => x) 0 pExC3).take 1).map
        (fun v => v.staticFetchLength)).sum) ∧
    ((downloadJobs (fun x => x) 0 pExC3).map
        (fun v => v.staticFetchLength)).sum = pExC3.length := by
  have hv3 : validParams pExC3 fileExC7 :=
    ⟨rfl, by decide, by decide, by decide, by decide, by decide⟩
  have h := chunk_write_ranges_partition (fun x => x) 0 pExC3 fileExC7 hv3
  have hget := downloadJobs_get (fun x => x) 0 pExC3 fileExC7 hv3 1 (by decide)
  refine ⟨?_, h.2⟩
  rw [hget]
  exact congrArg some (h.1 1 _ hget)

theorem insertPieceInto_length (resolve : Nat → Nat) (minC maxC id : Nat)
    (maps : List pieceMap) (pc : filePiece) :
    (insertPieceInto resolve minC maxC id maps pc).length = maps.length := by
  unfold insertPieceInto
  split
  · simp
  · rfl

theorem pieces_foldl_length (resolve : Nat → Nat) (minC maxC id : Nat) :
    ∀ (pieces : List filePiece) (maps : List pieceMap),
      (pieces.foldl (insertPieceInto resolve minC maxC id) maps).length =
        maps.length
  | [], _ => rfl
  | pc :: rest, maps => by
    rw [List.foldl_cons, pieces_foldl_length resolve minC maxC id rest _,
      insertPieceInto_length]

theorem contracts_foldl_length (resolve : Nat → Nat) (minC maxC : Nat) :
    ∀ (cts : List (Nat × fileContract)) (maps : List pieceMap),
      (cts.foldl (insertContract resolve minC maxC) maps).length = maps.length
  | [], _ => rfl
  | idc :: rest, maps => by
    rw [List.foldl_cons, contracts_foldl_length resolve minC maxC rest _]
    exact pieces_foldl_length resolve minC maxC idc.1 idc.2.pieces maps

theorem buildChunkMaps_length (resolve : Nat → Nat) (minC maxC : Nat)
    (contracts : List (Nat × fileContract)) :
    (buildChunkMaps resolve minC maxC contracts).length =
      add64 (sub64 maxC minC) 1 := by
  unfold buildChunkMaps
  rw [contracts_foldl_length]
  exact List.length_replicate _ _

theorem getD_set_self : ∀ (l : List pieceMap) (i : Nat), i < l.length →
    ∀ (v : pieceMap), (l.set i v).getD i emptyPieceMap = v
  | [], i, h, v => absurd h (by simp)
  | a :: l, 0, _, v => rfl
  | a :: l, i + 1, h, v => getD_set_self l i (by simpa using h) v

theorem getD_set_ne : ∀ (l : List pieceMap) (i j : Nat), i ≠ j →
    ∀ (v : pieceMap), (l.set i v).getD j emptyPieceMap = l.getD j emptyPieceMap
  | [], _, _, _, _ => rfl
  | a :: l, 0, 0, h, v => absurd rfl h
  | a :: l, 0, j + 1, _, v => rfl
  | a :: l, i + 1, 0, _, v => rfl
  | a :: l, i + 1, j + 1, h, v => getD_set_ne l i j (by omega) v

theorem getD_replicate : ∀ (n idx : Nat),
    (List.replicate n emptyPieceMap).getD idx emptyPieceMap = emptyPieceMap
  | 0, _ => rfl
  | n + 1, 0 => rfl
  | n + 1, idx + 1 => getD_replicate n idx

theorem insertPieceInto_getD (resolve : Nat → Nat) (minC maxC id : Nat)
    (maps : List pieceMap) (pc : filePiece) (idx k : Nat)
    (hidx : idx < maps.length) :
    ((insertPieceInto resolve minC maxC id maps pc).getD idx emptyPieceMap) k =
      if (minC ≤ pc.chunk ∧ pc.chunk ≤ maxC) ∧ pc.chunk - minC = idx ∧
          resolve id = k then
        some { index := pc.piece, root := pc.merkleRoot }
      else (maps.getD idx emptyPieceMap) k := by
  unfold insertPieceInto
  by_cases hr : minC ≤ pc.chunk ∧ pc.chunk ≤ maxC
  · rw [if_pos hr]
    by_cases hi : pc.chunk - minC = idx
    · have hset : (maps.set (pc.chunk - minC)
          (goUpdate (maps.getD (pc.chunk - minC) emptyPieceMap) (resolve id)
            { index := pc.piece, root := pc.merkleRoot })).getD idx emptyPieceMap =
          goUpdate (maps.getD (pc.chunk - minC) emptyPieceMap) (resolve id)
            { index := pc.piece, root := pc.merkleRoot } := by
        rw [← hi]
        exact getD_set_self maps _ (hi ▸ hidx) _
      rw [hset]
      unfold goUpdate
      by_cases hk : k = resolve id
      · rw [if_pos hk, if_pos ⟨hr, hi, hk.symm⟩]
      · rw [if_neg hk, if_neg (fun hc => hk (hc.2.2.symm)), hi]
    · rw [getD_set_ne maps _ idx hi _]
      rw [if_neg (fun hc => hi hc.2.1)]
  · rw [if_neg hr]
    rw [if_neg (fun hc => hr hc.1)]

theorem pieces_foldl_miss (resolve : Nat → Nat) (minC maxC id : Nat) :
    ∀ (pieces : List filePiece) (maps : List pieceMap) (idx k : Nat),
      idx < maps.length →
      (∀ pc ∈ pieces, ¬((minC ≤ pc.chunk ∧ pc.chunk ≤ maxC) ∧
        pc.chunk - minC = idx ∧ resolve id = k)) →
      ((pieces.foldl (insertPieceInto resolve minC maxC id) maps).getD idx
        emptyPieceMap) k = (maps.getD idx emptyPieceMap) k
  | [], _, _, _, _, _ => rfl
  | pc :: rest, maps, idx, k, hidx, hmiss => by
    rw [List.foldl_cons]
    rw [pieces_foldl_miss resolve minC maxC id rest _ idx k
      (by rw [insertPieceInto_length]; exact hidx)
      (fun q hq => hmiss q (List.mem_cons_of_mem pc hq))]
    rw [insertPieceInto_getD resolve minC maxC id maps pc idx k hidx]
    rw [if_neg (hmiss pc (List.mem_cons_self pc rest))]

theorem pieces_foldl_hit (resolve : Nat → Nat) (minC maxC id : Nat) :
    ∀ (pieces : List filePiece) (maps : List pieceMap) (idx k : Nat),
      idx < maps.length →
      (∃ pc ∈ pieces, (minC ≤ pc.chunk ∧ pc.chunk ≤ maxC) ∧
        pc.chunk - minC = idx ∧ resolve id = k) →
      ∃ pc ∈ pieces, ((minC ≤ pc.chunk ∧ pc.chunk ≤ maxC) ∧
          pc.chunk - minC = idx ∧ resolve id = k) ∧
        ((pieces.foldl (insertPieceInto resolve minC maxC id) maps).getD idx
          emptyPieceMap) k = some { index := pc.piece, root := pc.merkleRoot }
  | [], _, _, _, _, hex => by simp at hex
  | pc :: rest, maps, idx, k, hidx, hex => by
    rw [List.foldl_cons]
    by_cases hrest : ∃ q ∈ rest, (minC ≤ q.chunk ∧ q.chunk ≤ maxC) ∧
        q.chunk - minC = idx ∧ resolve id = k
    · obtain ⟨q, hq, hcond, hval⟩ := pieces_foldl_hit resolve minC maxC id rest
        (insertPieceInto resolve minC maxC id maps pc) idx k
        (by rw [insertPieceInto_length]; exact hidx) hrest
      exact ⟨q, List.mem_cons_of_mem pc hq, hcond, hval⟩
    · have hhit : (minC ≤ pc.chunk ∧ pc.chunk ≤ maxC) ∧
          pc.chunk - minC = idx ∧ resolve id = k := by
        obtain ⟨q, hq, hcond⟩ := hex
        rcases List.mem_cons.mp hq with h2 | hq2
        · rw [← h2]
          exact hcond
        · exact absurd ⟨q, hq2, hcond⟩ hrest
      refine ⟨pc, List.mem_cons_self pc rest, hhit, ?_⟩
      rw [pieces_foldl_miss resolve minC maxC id rest _ idx k
        (by rw [insertPieceInto_length]; exact hidx)
        (fun q hq hcond => hrest ⟨q, hq, hcond⟩)]
      rw [insertPieceInto_getD resolve minC maxC id maps pc idx k hidx]
      rw [if_pos hhit]

theorem contracts_foldl_miss (resolve : Nat → Nat) (minC maxC : Nat) :
    ∀ (cts : List (Nat × fileContract)) (maps : List pieceMap) (idx k : Nat),
      idx < maps.length →
      (∀ idc ∈ cts, ∀ pc ∈ idc.2.pieces,
        ¬((minC ≤ pc.chunk ∧ pc.chunk ≤ maxC) ∧ pc.chunk - minC = idx ∧
          resolve idc.1 = k)) →
      ((cts.foldl (insertContract resolve minC maxC) maps).getD idx
        emptyPieceMap) k = (maps.getD idx emptyPieceMap) k
  | [], _, _, _, _, _ => rfl
  | idc :: rest, maps, idx, k, hidx, hmiss => by
    rw [List.foldl_cons]
    rw [contracts_foldl_miss resolve minC maxC rest _ idx k
      (by rw [show (insertContract resolve minC maxC maps idc).length =
          maps.length from pieces_foldl_length resolve minC maxC idc.1 _ maps]
          exact hidx)
      (fun q hq => hmiss q (List.mem_cons_of_mem idc hq))]
    exact pieces_foldl_miss resolve minC maxC idc.1 idc.2.pieces maps idx k hidx
      (hmiss idc (List.mem_cons_self idc rest))

theorem contracts_foldl_hit (resolve : Nat → Nat) (minC maxC : Nat) :
    ∀ (cts : List (Nat × fileContract)) (maps : List pieceMap) (idx k : Nat),
      idx < maps.length →
      (∃ idc ∈ cts, ∃ pc ∈ idc.2.pieces,
        (minC ≤ pc.chunk ∧ pc.chunk ≤ maxC) ∧ pc.chunk - minC = idx ∧
          resolve idc.1 = k) →
      ∃ idc ∈ cts, ∃ pc ∈ idc.2.pieces,
        ((minC ≤ pc.chunk ∧ pc.chunk ≤ maxC) ∧ pc.chunk - minC = idx ∧
          resolve idc.1 = k) ∧
        ((cts.foldl (insertContract resolve minC maxC) maps).getD idx
          emptyPieceMap) k = some { index := pc.piece, root := pc.merkleRoot }
  | [], _, _, _, _, hex => by simp at hex
  | idc :: rest, maps, idx, k, hidx, hex => by
    rw [List.foldl_cons]
    by_cases hrest : ∃ q ∈ rest, ∃ pc ∈ q.2.pieces,
        (minC ≤ pc.chunk ∧ pc.chunk ≤ maxC) ∧ pc.chunk - minC = idx ∧
          resolve q.1 = k
    · obtain ⟨q, hq, pc, hpc, hcond, hval⟩ := contracts_foldl_hit resolve minC
        maxC rest (insertContract resolve minC maxC maps idc) idx k
        (by rw [show (insertContract resolve minC maxC maps idc).length =
            maps.length from pieces_foldl_length resolve minC maxC idc.1 _ maps]
            exact hidx) hrest
      exact ⟨q, List.mem_cons_of_mem idc hq, pc, hpc, hcond, hval⟩
    · have hhead : ∃ pc ∈ idc.2.pieces,
          (minC ≤ pc.chunk ∧ pc.chunk ≤ maxC) ∧ pc.chunk - minC = idx ∧
            resolve idc.1 = k := by
        obtain ⟨q, hq, pc, hpc, hcond⟩ := hex
        rcases List.mem_cons.mp hq with h2 | hq2
        · rw [← h2]
          exact ⟨pc, hpc, hcond⟩
        · exact absurd ⟨q, hq2, pc, hpc, hcond⟩ hrest
      obtain ⟨pc, hpc, hcond, hval⟩ := pieces_foldl_hit resolve minC maxC idc.1
        idc.2.pieces maps idx k hidx hhead
      refine ⟨idc, List.mem_cons_self idc rest, pc, hpc, hcond, ?_⟩
      rw [contracts_foldl_miss resolve minC maxC rest _ idx k
        (by rw [show (insertContract resolve minC maxC maps idc).length =
            maps.length from pieces_foldl_length resolve minC maxC idc.1 _ maps]
            exact hidx)
        (fun q hq pc2 hpc2 hcond2 => hrest ⟨q, hq, pc2, hpc2, hcond2⟩)]
      exact hval

theorem buildChunkMaps_char (resolve : Nat → Nat) (minC maxC : Nat)
    (contracts : List (Nat × fileContract)) (idx k : Nat)
    (hidx : idx < add64 (sub64 maxC minC) 1) :
    ((((buildChunkMaps resolve minC maxC contracts).getD idx emptyPieceMap) k
        ≠ none) ↔
      ∃ idc ∈ contracts, ∃ pc ∈ idc.2.pieces,
        (minC ≤ pc.chunk ∧ pc.chunk ≤ maxC) ∧ pc.chunk - minC = idx ∧
          resolve idc.1 = k) ∧
    (∀ v, ((buildChunkMaps resolve minC maxC contracts).getD idx emptyPieceMap) k
        = some v →
      ∃ idc ∈ contracts, ∃ pc ∈ idc.2.pieces,
        (minC ≤ pc.chunk ∧ pc.chunk ≤ maxC) ∧ pc.chunk - minC = idx ∧
          resolve idc.1 = k ∧
          v = { index := pc.piece, root := pc.merkleRoot }) := by
  have hbase : ((List.replicate (add64 (sub64 maxC minC) 1) emptyPieceMap).getD
      idx emptyPieceMap) k = none := by
    rw [getD_replicate]
    rfl
  have hlen : idx <
      (List.replicate (add64 (sub64 maxC minC) 1) emptyPieceMap).length := by
    simpa using hidx
  unfold buildChunkMaps
  by_cases hex : ∃ idc ∈ contracts, ∃ pc ∈ idc.2.pieces,
      (minC ≤ pc.chunk ∧ pc.chunk ≤ maxC) ∧ pc.chunk - minC = idx ∧
        resolve idc.1 = k
  · obtain ⟨idc, hidc, pc, hpc, hcond, hval⟩ :=
      contracts_foldl_hit resolve minC maxC contracts _ idx k hlen hex
    refine ⟨⟨fun _ => ⟨idc, hidc, pc, hpc, hcond⟩, fun _ => ?_⟩, fun v hv2 => ?_⟩
    · rw [hval]
      simp
    · rw [hval] at hv2
      injection hv2 with hv2
      exact ⟨idc, hidc, pc, hpc, hcond.1, hcond.2.1, hcond.2.2, hv2.symm⟩
  · have hmiss := contracts_foldl_miss resolve minC maxC contracts _ idx k hlen
      (fun idc hidc pc hpc hcond => hex ⟨idc, hidc, pc, hpc, hcond⟩)
    refine ⟨⟨fun h => ?_, fun h => ?_⟩, fun v hv2 => ?_⟩
    · rw [hmiss, hbase] at h
      exact absurd rfl h
    · exact absurd h hex
    · rw [hmiss, hbase] at hv2
      exact Option.noConfusion hv2

theorem maxC_succ_lt_W (p : downloadParams) (f : file) (hv : validParams p f) :
    goMaxChunk p f + 1 < W := by
  rw [goMaxChunk_eq p f hv]
  have h1 := hv.hrange
  have h2 := hv.hsize
  have h3 := Nat.div_le_self (p.offset + p.length - 1) f.chunkSize
  have h4 := hv.hlen
  omega

theorem theChunkMaps_length (resolve : Nat → Nat) (p : downloadParams)
    (f : file) (hv : validParams p f) :
    (theChunkMaps resolve p f).length = goMaxChunk p f - goMinChunk p f + 1 := by
  unfold theChunkMaps
  rw [buildChunkMaps_length]
  have h1 := minC_le_maxC p f hv
  have h2 := maxC_lt_W p f hv
  have h3 := maxC_succ_lt_W p f hv
  rw [sub64_eq_of_le h1 h2]
  exact add64_eq_of_lt (by omega)

/-- C8: for every validated download, newDownload computes
minChunk = offset / chunkSize and maxChunk = (offset + length − 1) /
chunkSize, builds one host-to-piece map per chunk in [minChunk, maxChunk]
whose entries are exactly the file's pieces with that chunk index keyed by
resolved contract id (the map type enforces at most one piece per (chunk,
resolved id)), enqueues exactly one chunk job per chunk in order, and
leaves chunksRemaining = maxChunk − minChunk + 1. -/
theorem newDownload_chunk_construction (resolve : Nat → Nat) (now : Nat)
    (p : downloadParams) (f : file) (hv : validParams p f) :
    goMinChunk p f = p.offset / f.chunkSize ∧
    goMaxChunk p f = (p.offset + p.length - 1) / f.chunkSize ∧
    (theChunkMaps resolve p f).length = goMaxChunk p f - goMinChunk p f + 1 ∧
    (downloadJobs resolve now p).length = goMaxChunk p f - goMinChunk p f + 1 ∧
    (downloadOf resolve now p).map (fun d => d.chunksRemaining) =
      some (goMaxChunk p f - goMinChunk p f + 1) ∧
    (∀ k, k ≤ goMaxChunk p f - goMinChunk p f →
      ((downloadJobs resolve now p).get? k).map (fun u => u.staticChunkIndex) =
        some (goMinChunk p f + k) ∧
      ((downloadJobs resolve now p).get? k).map (fun u => u.staticChunkMap) =
        some ((theChunkMaps resolve p f).getD k emptyPieceMap)) ∧
    (∀ c, goMinChunk p f ≤ c → c ≤ goMaxChunk p f → ∀ k,
      ((((theChunkMaps resolve p f).getD (c - goMinChunk p f) emptyPieceMap) k
          ≠ none) ↔
        ∃ idc ∈ f.contracts, ∃ pc ∈ idc.2.pieces,
          pc.chunk = c ∧ resolve idc.1 = k) ∧
      (∀ v, ((theChunkMaps resolve p f).getD (c - goMinChunk p f) emptyPieceMap) k
          = some v →
        ∃ idc ∈ f.contracts, ∃ pc ∈ idc.2.pieces, pc.chunk = c ∧
          resolve idc.1 = k ∧ v = { index := pc.piece, root := pc.merkleRoot })) := by
  have hmc := minC_le_maxC p f hv
  have hmW := maxC_lt_W p f hv
  refine ⟨rfl, goMaxChunk_eq p f hv, theChunkMaps_length resolve p f hv,
    downloadJobs_length resolve now p f hv, ?_, ?_, ?_⟩
  · unfold downloadOf
    rw [newDownload_ok resolve now p f hv]
    simp only [Option.map_some']
    refine congrArg some ?_
    show (buildJobs p f (theChunkMaps resolve p f)).length = _
    rw [← downloadJobs_eq resolve now p f hv,
      downloadJobs_length resolve now p f hv]
  · intro k hk
    constructor
    · rw [downloadJobs_get resolve now p f hv k hk]
      rfl
    · rw [downloadJobs_get resolve now p f hv k hk]
      have hidx2 : goMinChunk p f + k - goMinChunk p f = k := by omega
      show some ((theChunkMaps resolve p f).getD
        (goMinChunk p f + k - goMinChunk p f) emptyPieceMap) = _
      rw [hidx2]
  · intro c hc1 hc2 k
    have hmW2 := maxC_succ_lt_W p f hv
    have hidx : c - goMinChunk p f < add64 (sub64 (goMaxChunk p f)
        (goMinChunk p f)) 1 := by
      rw [sub64_eq_of_le hmc hmW, add64_eq_of_lt (by omega)]
      omega
    have hchar := buildChunkMaps_char resolve (goMinChunk p f) (goMaxChunk p f)
      f.contracts (c - goMinChunk p f) k hidx
    constructor
    · constructor
      · intro hne
        obtain ⟨idc, hidc, pc, hpc, hr, hie, hkey⟩ := hchar.1.mp hne
        have h4 : pc.chunk - goMinChunk p f + goMinChunk p f =
            c - goMinChunk p f + goMinChunk p f := by rw [hie]
        rw [Nat.sub_add_cancel hr.1, Nat.sub_add_cancel hc1] at h4
        exact ⟨idc, hidc, pc, hpc, h4, hkey⟩
      · intro hex
        obtain ⟨idc, hidc, pc, hpc, hchunk, hkey⟩ := hex
        have h1 : goMinChunk p f ≤ pc.chunk := by rw [hchunk]; exact hc1
        have h2 : pc.chunk ≤ goMaxChunk p f := by rw [hchunk]; exact hc2
        have h3 : pc.chunk - goMinChunk p f = c - goMinChunk p f := by
          rw [hchunk]
        exact hchar.1.mpr ⟨idc, hidc, pc, hpc, ⟨h1, h2⟩, h3, hkey⟩
    · intro v hval
      obtain ⟨idc, hidc, pc, hpc, hr, hie, hkey, hveq⟩ := hchar.2 v hval
      have h4 : pc.chunk - goMinChunk p f + goMinChunk p f =
          c - goMinChunk p f + goMinChunk p f := by rw [hie]
      rw [Nat.sub_add_cancel hr.1, Nat.sub_add_cancel hc1] at h4
      exact ⟨idc, hidc, pc, hpc, h4, hkey, hveq⟩

/-- A concrete file with one contract and one piece, used by the C8
witness; the resolver maps contract id 7 to 8. -/
def fileExC8 : file :=
  { name := ("f8"), size := 20, chunkSize := 10, pieceSize := 5, numPieces := 3,
    contracts := [(7, { pieces := [{ chunk := 1, piece := 2, merkleRoot := 99 }] })] }

def pExC8 : downloadParams :=
  { destinationType := ("file"), destinationString := ("/out"),
    file := some fileExC8, latencyTarget := 25000, length := 20,
    needsMemory := true, offset := 0, overdrive := 2, priority := 5 }

theorem newDownload_chunk_construction_witness :
    (downloadJobs (fun x => x + 1) 0 pExC8).length =
      goMaxChunk pExC8 fileExC8 - goMinChunk pExC8 fileExC8 + 1 ∧
    (downloadOf (fun x => x + 1) 0 pExC8).map (fun d => d.chunksRemaining) =
      some (goMaxChunk pExC8 fileExC8 - goMinChunk pExC8 fileExC8 + 1) ∧
    ((((theChunkMaps (fun x => x + 1) pExC8 fileExC8).getD
        (1 - goMinChunk pExC8 fileExC8) emptyPieceMap) 8 ≠ none)) ∧
    ((downloadJobs (fun x => x + 1) 0 pExC8).get? 0).map
        (fun u => u.staticChunkIndex) = some (goMinChunk pExC8 fileExC8 + 0) := by
  have hv8 : validParams pExC8 fileExC8 :=
    ⟨rfl, by decide, by decide, by decide, by decide, by decide⟩
  have h := newDownload_chunk_construction (fun x => x + 1) 0 pExC8 fileExC8 hv8
  refine ⟨h.2.2.2.1, h.2.2.2.2.1, ?_, (h.2.2.2.2.2.1 0 (by decide)).1⟩
  refine (h.2.2.2.2.2.2 1 (by decide) (by decide) 8).1.mpr ?_
  refine ⟨(7, { pieces := [{ chunk := 1, piece := 2, merkleRoot := 99 }] }),
    by simp [fileExC8], { chunk := 1, piece := 2, merkleRoot := 99 },
    by simp, rfl, rfl⟩

/-- The two events the final select of Renter.Download can wake on: the
download's completeChan being closed, or the thread group's StopChan
firing at shutdown. -/
inductive awaitEvent
  | completed
  | stopped

/-- The blocking select at the end of Renter.Download, as a function of
which event fires: on completion it returns d.Err(); on shutdown it
returns errors.New("download interrupted by shutdown"). -/
def downloadAwait (d : download) (ev : awaitEvent) : Option GoErr :=
  match ev with
  | .completed => downloadErr d
  | .stopped => some [("download interrupted by shutdown")]

/-- Modelled from the spec: the Scheduler/Worker shutdown path that fails
outstanding downloads is not part of the embedded source file.  Per the
spec ("a global shutdown signal is watched by the Scheduler and every
Worker. On shutdown, outstanding Downloads fail", and scenario S6: all
pending downloads fail with "download interrupted by shutdown"), a
pending download is failed through managedFail with that error. -/
def shutdownDownload (d : download) : download :=
  managedFail d (some [("download interrupted by shutdown")])

/-- C5: if the shutdown signal fires while a synchronous Download call is
blocked waiting for completion, Download returns an error whose message
is "download interrupted by shutdown", and the pending (not yet complete)
download is failed with that error: its completion channel is closed,
Err() returns that error, and the download history entry reports it as
completed with that error string. -/
theorem download_shutdown_interruption (d : download) (ev : awaitEvent)
    (hpending : d.completeClosed = false) (hev : ev = awaitEvent.stopped) :
    (downloadAwait d ev).map joinSep =
      some ("download interrupted by shutdown") ∧
    (shutdownDownload d).completeClosed = true ∧
    downloadErr (shutdownDownload d) =
      some [("download interrupted by shutdown")] ∧
    (downloadInfoOf (shutdownDownload d)).completed = true ∧
    (downloadInfoOf (shutdownDownload d)).error =
      ("download interrupted by shutdown") := by
  subst hev
  refine ⟨rfl, ?_, ?_, ?_, ?_⟩ <;>
    simp [shutdownDownload, managedFail, staticComplete, hpending, downloadErr,
      downloadInfoOf, joinSep]

theorem download_shutdown_interruption_witness :
    (downloadAwait {} awaitEvent.stopped).map joinSep =
      some ("download interrupted by shutdown") ∧
    (shutdownDownload {}).completeClosed = true ∧
    downloadErr (shutdownDownload {}) =
      some [("download interrupted by shutdown")] ∧
    (downloadInfoOf (shutdownDownload {})).completed = true ∧
    (downloadInfoOf (shutdownDownload {})).error =
      ("download interrupted by shutdown") :=
  download_shutdown_interruption {} awaitEvent.stopped rfl rfl
